import Mathlib

/-!
Shallow embedding of `src/CFRPlusMatrix.cpp` (class `MatrixGame`): a two-player
zero-sum matrix game solved by Fictitious Play, CFR and CFR+.  C++ `double`
arithmetic is modelled by exact rationals `ℚ`; the flat `std::vector<double>`
buffers are modelled as total functions from indices, with only indices below
`size` ever read or written by the operations.
-/

open Finset

/-- State of the C++ class `MatrixGame`: `size`, `iterationCount`, the flat
payoff buffer `payoffs` (entry `a * size + b` holds `M[a][b]`), and the
per-player `strategy` and `cfr` accumulators, indexed by player (0 or 1) and
action. -/
structure MatrixGame where
  size : ℕ
  iterationCount : ℤ
  payoffs : ℕ → ℚ
  strategy : ℕ → ℕ → ℚ
  cfr : ℕ → ℕ → ℚ

/-- `MatrixGame::GetPayoff`: `M[a][b]` for player 0, `-M[b][a]` for player 1. -/
def GetPayoff (g : MatrixGame) (p a b : ℕ) : ℚ :=
  if p = 0 then g.payoffs (a * g.size + b) else -g.payoffs (b * g.size + a)

/-- Total of player `p`'s strategy accumulator: the `sum` loop of
`MatrixGame::GetNormalizedStrategy`. -/
def strategySum (g : MatrixGame) (p : ℕ) : ℚ :=
  ∑ i in Finset.range g.size, g.strategy p i

/-- `MatrixGame::GetNormalizedStrategy`: divide by the total if it is
positive, otherwise the uniform distribution. -/
def GetNormalizedStrategy (g : MatrixGame) (p i : ℕ) : ℚ :=
  if strategySum g p > 0 then g.strategy p i / strategySum g p else 1 / (g.size : ℚ)

/-- Sum of the positive parts of player `p`'s regrets: the `sum` loop of
`MatrixGame::GetCurrentStrategy`. -/
def regretPosSum (g : MatrixGame) (p : ℕ) : ℚ :=
  ∑ i in Finset.range g.size, max 0 (g.cfr p i)

/-- `MatrixGame::GetCurrentStrategy` (regret matching): positive part divided
by the sum of positive parts, uniform fallback when that sum is not positive. -/
def GetCurrentStrategy (g : MatrixGame) (p i : ℕ) : ℚ :=
  if regretPosSum g p > 0 then
    (if g.cfr p i > 0 then g.cfr p i / regretPosSum g p else 0)
  else 1 / (g.size : ℚ)

/-- One step of the `maxSum`/`bestAction` scan shared by
`MatrixGame::BestResponse` and `MatrixGame::FictitiousPlay(int)`: the C++ loop
starts from `maxSum = -DBL_MAX`, `bestAction = -1` (modelled by `none`, since
every computed sum exceeds the sentinel) and replaces the pair on strict `>`. -/
def brStep (f : ℕ → ℚ) (acc : Option (ℕ × ℚ)) (a : ℕ) : Option (ℕ × ℚ) :=
  match acc with
  | none => some (a, f a)
  | some im => if f a > im.2 then some (a, f a) else some im

/-- The scan of `f` over actions `0, …, n-1`. -/
def brScan (f : ℕ → ℚ) (n : ℕ) : Option (ℕ × ℚ) :=
  (List.range n).foldl (brStep f) none

/-- Expected payoff of action `a` of `player` against the opponent's
normalized (average) strategy: the inner `sum` loop of
`MatrixGame::BestResponse` and `MatrixGame::FictitiousPlay(int)`. -/
def brValue (g : MatrixGame) (player a : ℕ) : ℚ :=
  ∑ b in Finset.range g.size, GetNormalizedStrategy g (player ^^^ 1) b * GetPayoff g player a b

/-- `MatrixGame::BestResponse`.  For `size = 0` the C++ loop would return the
`-DBL_MAX` sentinel; that branch is modelled by `0` and every theorem assumes a
positive size, so it is never reached. -/
def BestResponse (g : MatrixGame) (player : ℕ) : ℚ :=
  match brScan (brValue g player) g.size with
  | some im => im.2
  | none => 0

/-- `MatrixGame::GetExploitability`. -/
def GetExploitability (g : MatrixGame) : ℚ := (BestResponse g 0 + BestResponse g 1) / 2

/-- `MatrixGame::GetIterationCount`. -/
def GetIterationCount (g : MatrixGame) : ℤ := g.iterationCount

/-- The `bestAction` computed by `MatrixGame::FictitiousPlay(int)`.  For
`size = 0` the C++ variable would stay `-1` (out-of-bounds write, undefined);
that branch is modelled by `0` and is unreachable for positive size. -/
def fpBestAction (g : MatrixGame) (player : ℕ) : ℕ :=
  match brScan (brValue g player) g.size with
  | some im => im.1
  | none => 0

/-- `MatrixGame::FictitiousPlay(int player)`: increment
`strategy[player][bestAction]` by one. -/
def FictitiousPlayStep (g : MatrixGame) (player : ℕ) : MatrixGame :=
  { g with strategy := fun p i =>
      if p = player ∧ i = fpBestAction g player then g.strategy p i + 1 else g.strategy p i }

/-- The counterfactual utility `cfu[a]` computed by `MatrixGame::CFR(int)` and
`MatrixGame::CFRPlus(int)`. -/
def cfu (g : MatrixGame) (player a : ℕ) : ℚ :=
  ∑ b in Finset.range g.size, GetCurrentStrategy g (player ^^^ 1) b * GetPayoff g player a b

/-- The expected value `ev` computed by `MatrixGame::CFR(int)` and
`MatrixGame::CFRPlus(int)`. -/
def ev (g : MatrixGame) (player : ℕ) : ℚ :=
  ∑ a in Finset.range g.size, GetCurrentStrategy g player a * cfu g player a

/-- `MatrixGame::CFR(int player)`: add `cfu[a] - ev` to `cfr[player][a]` and
`sp[a]` to `strategy[player][a]` for every action `a < size`; `sp` is the
current strategy read at entry, before the regret write. -/
def CFRStep (g : MatrixGame) (player : ℕ) : MatrixGame :=
  { g with
    cfr := fun p i =>
      if p = player ∧ i < g.size then g.cfr p i + cfu g player i - ev g player else g.cfr p i,
    strategy := fun p i =>
      if p = player ∧ i < g.size then g.strategy p i + GetCurrentStrategy g player i
      else g.strategy p i }

/-- `MatrixGame::CFRPlus(int player)`: regrets are floored at zero, and the
strategy increment is weighted by `iterationCount²` (the counter was already
incremented by the caller). -/
def CFRPlusStep (g : MatrixGame) (player : ℕ) : MatrixGame :=
  { g with
    cfr := fun p i =>
      if p = player ∧ i < g.size then max 0 (g.cfr p i + cfu g player i - ev g player)
      else g.cfr p i,
    strategy := fun p i =>
      if p = player ∧ i < g.size then
        g.strategy p i +
          GetCurrentStrategy g player i * (g.iterationCount : ℚ) * (g.iterationCount : ℚ)
      else g.strategy p i }

/-- The `iterationCount++` at the top of the three public iteration methods. -/
def incCount (g : MatrixGame) : MatrixGame := { g with iterationCount := g.iterationCount + 1 }

/-- `MatrixGame::FictitiousPlay()`: bump the counter, then update player 0,
then player 1. -/
def FictitiousPlayIter (g : MatrixGame) : MatrixGame :=
  FictitiousPlayStep (FictitiousPlayStep (incCount g) 0) 1

/-- `MatrixGame::CFR()`: bump the counter, then update player 0, then player 1. -/
def CFRIter (g : MatrixGame) : MatrixGame := CFRStep (CFRStep (incCount g) 0) 1

/-- `MatrixGame::CFRPlus()`: bump the counter, then update player 0, then
player 1. -/
def CFRPlusIter (g : MatrixGame) : MatrixGame := CFRPlusStep (CFRPlusStep (incCount g) 0) 1

/-- `MatrixGame::Iteration(int algorithm)`: a `switch` whose `default` branch
runs `CFRPlus()`. -/
def Iteration (alg : ℤ) (g : MatrixGame) : MatrixGame :=
  if alg = 0 then FictitiousPlayIter g else if alg = 1 then CFRIter g else CFRPlusIter g

/-- The state right after the `MatrixGame` constructor: counter `0`, zeroed
accumulators, and an arbitrary payoff buffer (the constructor fills the buffer
from a uniform random distribution; every buffer is a possible outcome). -/
def initGame (n : ℕ) (P : ℕ → ℚ) : MatrixGame :=
  { size := n, iterationCount := 0, payoffs := P,
    strategy := fun _ _ => 0, cfr := fun _ _ => 0 }

/-- Solver states reachable from construction through `Iteration` calls with
arbitrary algorithm selectors. -/
inductive Reachable (n : ℕ) (P : ℕ → ℚ) : MatrixGame → Prop
  | init : Reachable n P (initGame n P)
  | step (g : MatrixGame) (alg : ℤ) : Reachable n P g → Reachable n P (Iteration alg g)

/-- `k` consecutive `CFRPlus()` iterations. -/
def iterCFRPlus (k : ℕ) (g : MatrixGame) : MatrixGame :=
  match k with
  | 0 => g
  | k + 1 => CFRPlusIter (iterCFRPlus k g)

/-- `GetIterationCount` as a method call on the receiver: the member function
is `const` and its body only reads `iterationCount`, so the call returns the
value together with the unchanged receiver state. -/
def GetIterationCountCall (g : MatrixGame) : ℤ × MatrixGame := (GetIterationCount g, g)

/-- `GetExploitability` as a method call on the receiver: `GetExploitability`,
`BestResponse`, `GetNormalizedStrategy` and `GetPayoff` are all `const` member
functions whose bodies write only local variables, so the call returns the
value together with the unchanged receiver state. -/
def GetExploitabilityCall (g : MatrixGame) : ℚ × MatrixGame := (GetExploitability g, g)

/-- Payoff buffer of the 2×2 game with `M[0][0] = 1` and all other entries `0`. -/
def cexPayoffs : ℕ → ℚ := fun k => if k = 0 then 1 else 0

/-- A 2×2 example game at construction. -/
def exGame : MatrixGame := initGame 2 cexPayoffs

/-- The pre-update state inside an `Iteration` call on `exGame`: the counter is
incremented before the per-player updates run. -/
def cexGame : MatrixGame := incCount exGame

theorem incCount_size (g : MatrixGame) : (incCount g).size = g.size := rfl

theorem incCount_strategy (g : MatrixGame) : (incCount g).strategy = g.strategy := rfl

theorem incCount_cfr (g : MatrixGame) : (incCount g).cfr = g.cfr := rfl

theorem incCount_payoffs (g : MatrixGame) : (incCount g).payoffs = g.payoffs := rfl

theorem fpStep_size (g : MatrixGame) (player : ℕ) :
    (FictitiousPlayStep g player).size = g.size := rfl

theorem fpStep_cfr (g : MatrixGame) (player : ℕ) :
    (FictitiousPlayStep g player).cfr = g.cfr := rfl

theorem fpStep_payoffs (g : MatrixGame) (player : ℕ) :
    (FictitiousPlayStep g player).payoffs = g.payoffs := rfl

theorem fpStep_count (g : MatrixGame) (player : ℕ) :
    (FictitiousPlayStep g player).iterationCount = g.iterationCount := rfl

theorem fpStep_strategy_other (g : MatrixGame) (player p i : ℕ) (h : p ≠ player) :
    (FictitiousPlayStep g player).strategy p i = g.strategy p i := by
  simp [FictitiousPlayStep, h]

theorem fpStep_strategy_miss (g : MatrixGame) (player p i : ℕ) (h : i ≠ fpBestAction g player) :
    (FictitiousPlayStep g player).strategy p i = g.strategy p i := by
  simp [FictitiousPlayStep, h]

theorem fpStep_strategy_hit (g : MatrixGame) (player : ℕ) :
    (FictitiousPlayStep g player).strategy player (fpBestAction g player) =
      g.strategy player (fpBestAction g player) + 1 := by
  simp [FictitiousPlayStep]

theorem CFRStep_size (g : MatrixGame) (player : ℕ) : (CFRStep g player).size = g.size := rfl

theorem CFRStep_payoffs (g : MatrixGame) (player : ℕ) :
    (CFRStep g player).payoffs = g.payoffs := rfl

theorem CFRStep_count (g : MatrixGame) (player : ℕ) :
    (CFRStep g player).iterationCount = g.iterationCount := rfl

theorem CFRStep_cfr_other (g : MatrixGame) (player p i : ℕ) (h : p ≠ player) :
    (CFRStep g player).cfr p i = g.cfr p i := by
  simp [CFRStep, h]

theorem CFRStep_strategy_other (g : MatrixGame) (player p i : ℕ) (h : p ≠ player) :
    (CFRStep g player).strategy p i = g.strategy p i := by
  simp [CFRStep, h]

theorem CFRStep_cfr_self (g : MatrixGame) (player i : ℕ) (h : i < g.size) :
    (CFRStep g player).cfr player i = g.cfr player i + cfu g player i - ev g player := by
  simp [CFRStep, h]

theorem CFRStep_strategy_self (g : MatrixGame) (player i : ℕ) (h : i < g.size) :
    (CFRStep g player).strategy player i = g.strategy player i + GetCurrentStrategy g player i := by
  simp [CFRStep, h]

theorem CFRPlusStep_size (g : MatrixGame) (player : ℕ) : (CFRPlusStep g player).size = g.size := rfl

theorem CFRPlusStep_payoffs (g : MatrixGame) (player : ℕ) :
    (CFRPlusStep g player).payoffs = g.payoffs := rfl

theorem CFRPlusStep_count (g : MatrixGame) (player : ℕ) :
    (CFRPlusStep g player).iterationCount = g.iterationCount := rfl

theorem CFRPlusStep_cfr_other (g : MatrixGame) (player p i : ℕ) (h : p ≠ player) :
    (CFRPlusStep g player).cfr p i = g.cfr p i := by
  simp [CFRPlusStep, h]

theorem CFRPlusStep_strategy_other (g : MatrixGame) (player p i : ℕ) (h : p ≠ player) :
    (CFRPlusStep g player).strategy p i = g.strategy p i := by
  simp [CFRPlusStep, h]

theorem CFRPlusStep_cfr_self (g : MatrixGame) (player i : ℕ) (h : i < g.size) :
    (CFRPlusStep g player).cfr player i = max 0 (g.cfr player i + cfu g player i - ev g player) := by
  simp [CFRPlusStep, h]

theorem CFRPlusStep_strategy_self (g : MatrixGame) (player i : ℕ) (h : i < g.size) :
    (CFRPlusStep g player).strategy player i =
      g.strategy player i +
        GetCurrentStrategy g player i * (g.iterationCount : ℚ) * (g.iterationCount : ℚ) := by
  simp [CFRPlusStep, h]

theorem regretPosSum_nonneg (g : MatrixGame) (p : ℕ) : 0 ≤ regretPosSum g p :=
  Finset.sum_nonneg fun i _ => le_max_left 0 (g.cfr p i)

theorem max_zero_eq_ite (x : ℚ) : max 0 x = if x > 0 then x else 0 := by
  rcases le_or_lt x 0 with h | h
  · rw [max_eq_left h, if_neg (not_lt.mpr h)]
  · rw [max_eq_right h.le, if_pos h]

theorem GetCurrentStrategy_nonneg (g : MatrixGame) (p i : ℕ) :
    0 ≤ GetCurrentStrategy g p i := by
  unfold GetCurrentStrategy
  by_cases hs : regretPosSum g p > 0
  · rw [if_pos hs]
    by_cases hc : g.cfr p i > 0
    · rw [if_pos hc]
      exact div_nonneg hc.le hs.le
    · rw [if_neg hc]
  · rw [if_neg hs]
    exact one_div_nonneg.mpr (Nat.cast_nonneg g.size)

theorem sum_uniform_eq_one (n : ℕ) (h : 0 < n) :
    ∑ _i in Finset.range n, (1 : ℚ) / (n : ℚ) = 1 := by
  rw [Finset.sum_const, Finset.card_range, nsmul_eq_mul, mul_one_div, div_self]
  exact Nat.cast_ne_zero.mpr (Nat.pos_iff_ne_zero.mp h)

theorem GetCurrentStrategy_sum_one (g : MatrixGame) (p : ℕ) (h : 0 < g.size) :
    ∑ i in Finset.range g.size, GetCurrentStrategy g p i = 1 := by
  by_cases hs : regretPosSum g p > 0
  · have hterm : ∀ i ∈ Finset.range g.size,
        GetCurrentStrategy g p i = max 0 (g.cfr p i) / regretPosSum g p := by
      intro i _
      rw [GetCurrentStrategy, if_pos hs, max_zero_eq_ite]
      by_cases hc : g.cfr p i > 0
      · rw [if_pos hc, if_pos hc]
      · rw [if_neg hc, if_neg hc, zero_div]
    rw [Finset.sum_congr rfl hterm, ← Finset.sum_div]
    have hsum : ∑ i in Finset.range g.size, max 0 (g.cfr p i) = regretPosSum g p := rfl
    rw [hsum, div_self (ne_of_gt hs)]
  · have hterm : ∀ i ∈ Finset.range g.size, GetCurrentStrategy g p i = 1 / (g.size : ℚ) := by
      intro i _
      rw [GetCurrentStrategy, if_neg hs]
    rw [Finset.sum_congr rfl hterm, sum_uniform_eq_one g.size h]

theorem GetNormalizedStrategy_nonneg (g : MatrixGame) (p i : ℕ)
    (hS : ∀ j, 0 ≤ g.strategy p j) : 0 ≤ GetNormalizedStrategy g p i := by
  unfold GetNormalizedStrategy
  by_cases hs : strategySum g p > 0
  · rw [if_pos hs]
    exact div_nonneg (hS i) hs.le
  · rw [if_neg hs]
    exact one_div_nonneg.mpr (Nat.cast_nonneg g.size)

theorem GetNormalizedStrategy_sum_one (g : MatrixGame) (p : ℕ) (h : 0 < g.size) :
    ∑ i in Finset.range g.size, GetNormalizedStrategy g p i = 1 := by
  by_cases hs : strategySum g p > 0
  · have hterm : ∀ i ∈ Finset.range g.size,
        GetNormalizedStrategy g p i = g.strategy p i / strategySum g p := by
      intro i _
      rw [GetNormalizedStrategy, if_pos hs]
    rw [Finset.sum_congr rfl hterm, ← Finset.sum_div]
    have hsum : ∑ i in Finset.range g.size, g.strategy p i = strategySum g p := rfl
    rw [hsum, div_self (ne_of_gt hs)]
  · have hterm : ∀ i ∈ Finset.range g.size,
        GetNormalizedStrategy g p i = 1 / (g.size : ℚ) := by
      intro i _
      rw [GetNormalizedStrategy, if_neg hs]
    rw [Finset.sum_congr rfl hterm, sum_uniform_eq_one g.size h]

theorem brScan_zero (f : ℕ → ℚ) : brScan f 0 = none := rfl

theorem brScan_succ (f : ℕ → ℚ) (n : ℕ) : brScan f (n + 1) = brStep f (brScan f n) n := by
  unfold brScan
  rw [List.range_succ, List.foldl_append, List.foldl_cons, List.foldl_nil]

theorem brScan_eq_none (f : ℕ → ℚ) (n : ℕ) (h : brScan f n = none) : n = 0 := by
  cases n with
  | zero => rfl
  | succ k =>
    rw [brScan_succ] at h
    cases hk : brScan f k with
    | none =>
      rw [hk] at h
      simp [brStep] at h
    | some im =>
      rw [hk] at h
      by_cases hc : f k > im.2
      · rw [brStep, if_pos hc] at h
        exact absurd h (by simp)
      · rw [brStep, if_neg hc] at h
        exact absurd h (by simp)

theorem brScan_spec (f : ℕ → ℚ) :
    ∀ n i m, brScan f n = some (i, m) →
      f i = m ∧ i < n ∧ (∀ a, a < n → f a ≤ m) ∧ (∀ j, j < i → f j < m) := by
  intro n
  induction n with
  | zero =>
    intro i m h
    rw [brScan_zero] at h
    exact absurd h (by simp)
  | succ k ih =>
    intro i m h
    rw [brScan_succ] at h
    cases hk : brScan f k with
    | none =>
      have hk0 : k = 0 := brScan_eq_none f k hk
      subst hk0
      rw [hk] at h
      rw [brStep] at h
      have hi : 0 = i ∧ f 0 = m := by
        constructor
        · exact congrArg (fun o => (Option.getD o (0, 0)).1) h
        · exact congrArg (fun o => (Option.getD o (0, 0)).2) h
      obtain ⟨hi0, hm0⟩ := hi
      subst hi0
      refine ⟨hm0, Nat.zero_lt_one, ?_, ?_⟩
      · intro a ha
        interval_cases a
        exact le_of_eq hm0
      · intro j hj
        exact absurd hj (Nat.not_lt_zero j)
    | some im =>
      rw [hk] at h
      obtain ⟨him, hlt, hub, hfirst⟩ := ih im.1 im.2 (by rw [hk])
      by_cases hc : f k > im.2
      · rw [brStep, if_pos hc] at h
        have hi : k = i ∧ f k = m := by
          constructor
          · exact congrArg (fun o => (Option.getD o (0, 0)).1) h
          · exact congrArg (fun o => (Option.getD o (0, 0)).2) h
        obtain ⟨hik, hmk⟩ := hi
        subst hik
        refine ⟨hmk, Nat.lt_succ_self _, ?_, ?_⟩
        · intro a ha
          rcases Nat.lt_succ_iff_lt_or_eq.mp ha with ha' | ha'
          · exact le_of_lt (lt_of_le_of_lt (hub a ha') (hmk ▸ hc))
          · subst ha'
            exact le_of_eq hmk
        · intro j hj
          exact lt_of_le_of_lt (hub j hj) (hmk ▸ hc)
      · rw [brStep, if_neg hc] at h
        have hi : im.1 = i ∧ im.2 = m := by
          constructor
          · exact congrArg (fun o => (Option.getD o (0, 0)).1) h
          · exact congrArg (fun o => (Option.getD o (0, 0)).2) h
        obtain ⟨hik, hmk⟩ := hi
        subst hik
        subst hmk
        refine ⟨him, Nat.lt_succ_of_lt hlt, ?_, hfirst⟩
        intro a ha
        rcases Nat.lt_succ_iff_lt_or_eq.mp ha with ha' | ha'
        · exact hub a ha'
        · subst ha'
          exact not_lt.mp hc

theorem GetPayoff_zero (g : MatrixGame) (a b : ℕ) :
    GetPayoff g 0 a b = g.payoffs (a * g.size + b) := rfl

theorem GetPayoff_one (g : MatrixGame) (a b : ℕ) :
    GetPayoff g 1 a b = -g.payoffs (b * g.size + a) := by
  rw [GetPayoff, if_neg one_ne_zero]

theorem BestResponse_eq_of_scan (g : MatrixGame) (player : ℕ) (im : ℕ × ℚ)
    (h : brScan (brValue g player) g.size = some im) : BestResponse g player = im.2 := by
  unfold BestResponse
  rw [h]

theorem BestResponse_ge (g : MatrixGame) (player : ℕ) (h : 0 < g.size) (a : ℕ)
    (ha : a < g.size) : brValue g player a ≤ BestResponse g player := by
  cases hbs : brScan (brValue g player) g.size with
  | none => exact absurd (brScan_eq_none _ _ hbs) (Nat.pos_iff_ne_zero.mp h)
  | some im =>
    obtain ⟨_, _, hub, _⟩ := brScan_spec (brValue g player) g.size im.1 im.2 (by rw [hbs])
    rw [BestResponse_eq_of_scan g player im hbs]
    exact hub a ha

theorem BestResponse_attained (g : MatrixGame) (player : ℕ) (h : 0 < g.size) :
    ∃ a, a < g.size ∧ BestResponse g player = brValue g player a := by
  cases hbs : brScan (brValue g player) g.size with
  | none => exact absurd (brScan_eq_none _ _ hbs) (Nat.pos_iff_ne_zero.mp h)
  | some im =>
    obtain ⟨hfi, hlt, _, _⟩ := brScan_spec (brValue g player) g.size im.1 im.2 (by rw [hbs])
    exact ⟨im.1, hlt, by rw [BestResponse_eq_of_scan g player im hbs, hfi]⟩

theorem weighted_sum_le (n : ℕ) (w f : ℕ → ℚ) (hw : ∀ i, 0 ≤ w i)
    (hsum : ∑ i in Finset.range n, w i = 1) (M : ℚ) (hub : ∀ a, a < n → f a ≤ M) :
    ∑ a in Finset.range n, w a * f a ≤ M :=
  calc ∑ a in Finset.range n, w a * f a
      ≤ ∑ a in Finset.range n, w a * M :=
        Finset.sum_le_sum fun i hi =>
          mul_le_mul_of_nonneg_left (hub i (Finset.mem_range.mp hi)) (hw i)
    _ = (∑ a in Finset.range n, w a) * M := (Finset.sum_mul _ _ _).symm
    _ = M := by rw [hsum, one_mul]

theorem fpStep_strategy_mono (g : MatrixGame) (player p i : ℕ) :
    g.strategy p i ≤ (FictitiousPlayStep g player).strategy p i := by
  have hd : (FictitiousPlayStep g player).strategy p i =
      if p = player ∧ i = fpBestAction g player then g.strategy p i + 1 else g.strategy p i := rfl
  rw [hd]
  split
  · linarith
  · exact le_refl _

theorem CFRStep_strategy_mono (g : MatrixGame) (player p i : ℕ) :
    g.strategy p i ≤ (CFRStep g player).strategy p i := by
  have hd : (CFRStep g player).strategy p i =
      if p = player ∧ i < g.size then g.strategy p i + GetCurrentStrategy g player i
      else g.strategy p i := rfl
  rw [hd]
  split
  · exact le_add_of_nonneg_right (GetCurrentStrategy_nonneg g player i)
  · exact le_refl _

theorem CFRPlusStep_strategy_mono (g : MatrixGame) (player p i : ℕ) :
    g.strategy p i ≤ (CFRPlusStep g player).strategy p i := by
  have hd : (CFRPlusStep g player).strategy p i =
      if p = player ∧ i < g.size then
        g.strategy p i +
          GetCurrentStrategy g player i * (g.iterationCount : ℚ) * (g.iterationCount : ℚ)
      else g.strategy p i := rfl
  rw [hd]
  split
  · have hnn : 0 ≤ GetCurrentStrategy g player i * (g.iterationCount : ℚ) * (g.iterationCount : ℚ) := by
      rw [mul_assoc]
      exact mul_nonneg (GetCurrentStrategy_nonneg g player i) (mul_self_nonneg _)
    exact le_add_of_nonneg_right hnn
  · exact le_refl _

theorem Iteration_strategy_mono (alg : ℤ) (g : MatrixGame) (p i : ℕ) :
    g.strategy p i ≤ (Iteration alg g).strategy p i := by
  unfold Iteration
  split
  · calc g.strategy p i = (incCount g).strategy p i := rfl
      _ ≤ (FictitiousPlayStep (incCount g) 0).strategy p i := fpStep_strategy_mono _ 0 p i
      _ ≤ (FictitiousPlayIter g).strategy p i := fpStep_strategy_mono _ 1 p i
  split
  · calc g.strategy p i = (incCount g).strategy p i := rfl
      _ ≤ (CFRStep (incCount g) 0).strategy p i := CFRStep_strategy_mono _ 0 p i
      _ ≤ (CFRIter g).strategy p i := CFRStep_strategy_mono _ 1 p i
  · calc g.strategy p i = (incCount g).strategy p i := rfl
      _ ≤ (CFRPlusStep (incCount g) 0).strategy p i := CFRPlusStep_strategy_mono _ 0 p i
      _ ≤ (CFRPlusIter g).strategy p i := CFRPlusStep_strategy_mono _ 1 p i

theorem Iteration_size (alg : ℤ) (g : MatrixGame) : (Iteration alg g).size = g.size := by
  unfold Iteration
  split
  · rfl
  split
  · rfl
  · rfl

theorem Reachable_size (n : ℕ) (P : ℕ → ℚ) (g : MatrixGame) (h : Reachable n P g) :
    g.size = n := by
  induction h with
  | init => rfl
  | step g alg _ ih => rw [Iteration_size, ih]

theorem Reachable_strategy_nonneg (n : ℕ) (P : ℕ → ℚ) (g : MatrixGame) (h : Reachable n P g) :
    ∀ p i, 0 ≤ g.strategy p i := by
  induction h with
  | init => intro p i; exact le_refl 0
  | step g alg _ ih => intro p i; exact le_trans (ih p i) (Iteration_strategy_mono alg g p i)

theorem brValue_zero_eq (g : MatrixGame) (a : ℕ) :
    brValue g 0 a =
      ∑ b in Finset.range g.size, GetNormalizedStrategy g 1 b * g.payoffs (a * g.size + b) := rfl

theorem brValue_one_eq (g : MatrixGame) (a : ℕ) :
    brValue g 1 a =
      ∑ b in Finset.range g.size,
        GetNormalizedStrategy g 0 b * (-g.payoffs (b * g.size + a)) := by
  refine Finset.sum_congr rfl fun b _ => ?_
  rw [GetPayoff_one]
  rfl

theorem exploitability_nonneg_core (g : MatrixGame) (h : 0 < g.size)
    (hS : ∀ p i, 0 ≤ g.strategy p i) : 0 ≤ GetExploitability g := by
  have hns0 : ∀ i, 0 ≤ GetNormalizedStrategy g 0 i :=
    fun i => GetNormalizedStrategy_nonneg g 0 i (hS 0)
  have hns1 : ∀ i, 0 ≤ GetNormalizedStrategy g 1 i :=
    fun i => GetNormalizedStrategy_nonneg g 1 i (hS 1)
  have hsum0 := GetNormalizedStrategy_sum_one g 0 h
  have hsum1 := GetNormalizedStrategy_sum_one g 1 h
  have hV0 : ∑ a in Finset.range g.size, GetNormalizedStrategy g 0 a * brValue g 0 a ≤
      BestResponse g 0 :=
    weighted_sum_le g.size _ _ hns0 hsum0 _ fun a ha => BestResponse_ge g 0 h a ha
  have hV1 : ∑ a in Finset.range g.size, GetNormalizedStrategy g 1 a * brValue g 1 a ≤
      BestResponse g 1 :=
    weighted_sum_le g.size _ _ hns1 hsum1 _ fun a ha => BestResponse_ge g 1 h a ha
  have hkey : (∑ a in Finset.range g.size, GetNormalizedStrategy g 1 a * brValue g 1 a)
      = -(∑ a in Finset.range g.size, GetNormalizedStrategy g 0 a * brValue g 0 a) := by
    have e1 : ∑ a in Finset.range g.size, GetNormalizedStrategy g 1 a * brValue g 1 a
        = ∑ a in Finset.range g.size, ∑ b in Finset.range g.size,
            GetNormalizedStrategy g 1 a *
              (GetNormalizedStrategy g 0 b * (-g.payoffs (b * g.size + a))) := by
      refine Finset.sum_congr rfl fun a _ => ?_
      rw [brValue_one_eq g a, Finset.mul_sum]
    have e2 : ∑ a in Finset.range g.size, GetNormalizedStrategy g 0 a * brValue g 0 a
        = ∑ a in Finset.range g.size, ∑ b in Finset.range g.size,
            GetNormalizedStrategy g 0 a *
              (GetNormalizedStrategy g 1 b * g.payoffs (a * g.size + b)) := by
      refine Finset.sum_congr rfl fun a _ => ?_
      rw [brValue_zero_eq g a, Finset.mul_sum]
    rw [e1, e2, Finset.sum_comm, ← Finset.sum_neg_distrib]
    refine Finset.sum_congr rfl fun b _ => ?_
    rw [← Finset.sum_neg_distrib]
    refine Finset.sum_congr rfl fun a _ => ?_
    ring
  have hgoal : GetExploitability g = (BestResponse g 0 + BestResponse g 1) / 2 := rfl
  rw [hgoal]
  linarith [hV0, hV1, hkey]

theorem CFRPlusStep_cfr_nonneg (g : MatrixGame) (player : ℕ)
    (hg : ∀ p i, 0 ≤ g.cfr p i) : ∀ p i, 0 ≤ (CFRPlusStep g player).cfr p i := by
  intro p i
  have hd : (CFRPlusStep g player).cfr p i =
      if p = player ∧ i < g.size then max 0 (g.cfr p i + cfu g player i - ev g player)
      else g.cfr p i := rfl
  rw [hd]
  split
  · exact le_max_left 0 _
  · exact hg p i

theorem CFRPlusIter_cfr_nonneg (g : MatrixGame) (hg : ∀ p i, 0 ≤ g.cfr p i) :
    ∀ p i, 0 ≤ (CFRPlusIter g).cfr p i :=
  CFRPlusStep_cfr_nonneg _ 1 (CFRPlusStep_cfr_nonneg _ 0 hg)

/-- C1 (counterexample): at the pre-update state reached inside an `Iteration`
call on the freshly constructed 2×2 game `exGame` (counter already bumped),
running the per-player CFR updates as player 0 then player 1 leaves a
different regret accumulator than the opposite order: `cfr[1][0]` becomes
`-1/2` in one order and `-1/4` in the other, because the second player's
update reads the first player's already-updated regrets through
`GetCurrentStrategy`.  This refutes the claimed order-independence. -/
theorem cfr_update_order_counterexample :
    (CFRStep (CFRStep cexGame 0) 1).cfr 1 0 ≠ (CFRStep (CFRStep cexGame 1) 0).cfr 1 0 := by
  have hps : ∀ p, regretPosSum cexGame p = 0 := by
    intro p
    show ∑ _i in Finset.range 2, max (0:ℚ) 0 = 0
    simp
  have hcs : ∀ p i, GetCurrentStrategy cexGame p i = 1 / 2 := by
    intro p i
    rw [GetCurrentStrategy, hps p, if_neg (lt_irrefl 0)]
    show (1:ℚ) / ((2:ℕ):ℚ) = 1 / 2
    norm_num
  have hcfu : ∀ player a, cfu cexGame player a =
      ∑ b in Finset.range 2, (1 / 2 : ℚ) * GetPayoff cexGame player a b := by
    intro player a
    unfold cfu
    refine Finset.sum_congr rfl fun b _ => ?_
    rw [hcs (player ^^^ 1) b]
  have hcfu00 : cfu cexGame 0 0 = 1 / 2 := by
    rw [hcfu 0 0, Finset.sum_range_succ, Finset.sum_range_succ, Finset.sum_range_zero,
      show GetPayoff cexGame 0 0 0 = 1 from rfl, show GetPayoff cexGame 0 0 1 = 0 from rfl]
    norm_num
  have hcfu01 : cfu cexGame 0 1 = 0 := by
    rw [hcfu 0 1, Finset.sum_range_succ, Finset.sum_range_succ, Finset.sum_range_zero,
      show GetPayoff cexGame 0 1 0 = 0 from rfl, show GetPayoff cexGame 0 1 1 = 0 from rfl]
    norm_num
  have hcfu10 : cfu cexGame 1 0 = -(1 / 2) := by
    rw [hcfu 1 0, Finset.sum_range_succ, Finset.sum_range_succ, Finset.sum_range_zero,
      show GetPayoff cexGame 1 0 0 = -1 from rfl, show GetPayoff cexGame 1 0 1 = 0 from rfl]
    norm_num
  have hcfu11 : cfu cexGame 1 1 = 0 := by
    rw [hcfu 1 1, Finset.sum_range_succ, Finset.sum_range_succ, Finset.sum_range_zero,
      show GetPayoff cexGame 1 1 0 = 0 from rfl, show GetPayoff cexGame 1 1 1 = 0 from rfl]
    norm_num
  have hev : ∀ player, ev cexGame player =
      ∑ a in Finset.range 2, (1 / 2 : ℚ) * cfu cexGame player a := by
    intro player
    unfold ev
    refine Finset.sum_congr rfl fun a _ => ?_
    rw [hcs player a]
  have hev0 : ev cexGame 0 = 1 / 4 := by
    rw [hev 0, Finset.sum_range_succ, Finset.sum_range_succ, Finset.sum_range_zero,
      hcfu00, hcfu01]
    norm_num
  have hev1 : ev cexGame 1 = -(1 / 4) := by
    rw [hev 1, Finset.sum_range_succ, Finset.sum_range_succ, Finset.sum_range_zero,
      hcfu10, hcfu11]
    norm_num
  have hB : (CFRStep (CFRStep cexGame 1) 0).cfr 1 0 = -(1 / 4) := by
    rw [CFRStep_cfr_other _ 0 1 0 one_ne_zero,
      CFRStep_cfr_self cexGame 1 0 (by decide : (0:ℕ) < cexGame.size),
      show cexGame.cfr 1 0 = 0 from rfl, hcfu10, hev1]
    norm_num
  have hA : (CFRStep (CFRStep cexGame 0) 1).cfr 1 0 = -(1 / 2) := by
    set g1 := CFRStep cexGame 0 with hg1
    have hg1cfr1 : ∀ i, g1.cfr 1 i = 0 := by
      intro i
      rw [hg1, CFRStep_cfr_other _ 0 1 i one_ne_zero]
      rfl
    have hg100 : g1.cfr 0 0 = 1 / 4 := by
      rw [hg1, CFRStep_cfr_self cexGame 0 0 (by decide : (0:ℕ) < cexGame.size),
        show cexGame.cfr 0 0 = 0 from rfl, hcfu00, hev0]
      norm_num
    have hg101 : g1.cfr 0 1 = -(1 / 4) := by
      rw [hg1, CFRStep_cfr_self cexGame 0 1 (by decide : (1:ℕ) < cexGame.size),
        show cexGame.cfr 0 1 = 0 from rfl, hcfu01, hev0]
      norm_num
    have hps1 : regretPosSum g1 1 = 0 := by
      have hrw : regretPosSum g1 1 = ∑ i in Finset.range 2, max (0:ℚ) (g1.cfr 1 i) := rfl
      rw [hrw, Finset.sum_range_succ, Finset.sum_range_succ, Finset.sum_range_zero,
        hg1cfr1 0, hg1cfr1 1]
      simp
    have hps0 : regretPosSum g1 0 = 1 / 4 := by
      have hrw : regretPosSum g1 0 = ∑ i in Finset.range 2, max (0:ℚ) (g1.cfr 0 i) := rfl
      rw [hrw, Finset.sum_range_succ, Finset.sum_range_succ, Finset.sum_range_zero,
        hg100, hg101, max_eq_right (by norm_num : (0:ℚ) ≤ 1 / 4),
        max_eq_left (by norm_num : -(1 / 4) ≤ (0:ℚ))]
      norm_num
    have hcs1 : ∀ i, GetCurrentStrategy g1 1 i = 1 / 2 := by
      intro i
      rw [GetCurrentStrategy, hps1, if_neg (lt_irrefl 0)]
      show (1:ℚ) / ((2:ℕ):ℚ) = 1 / 2
      norm_num
    have hcs00 : GetCurrentStrategy g1 0 0 = 1 := by
      rw [GetCurrentStrategy, hps0, if_pos (by norm_num : (0:ℚ) < 1 / 4), hg100,
        if_pos (by norm_num : (0:ℚ) < 1 / 4)]
      norm_num
    have hcs01 : GetCurrentStrategy g1 0 1 = 0 := by
      rw [GetCurrentStrategy, hps0, if_pos (by norm_num : (0:ℚ) < 1 / 4), hg101,
        if_neg (by norm_num : ¬(0:ℚ) < -(1 / 4))]
    have hpay1 : ∀ a b, GetPayoff g1 1 a b = GetPayoff cexGame 1 a b := fun a b => rfl
    have hcfu1 : ∀ a, cfu g1 1 a =
        ∑ b in Finset.range 2, GetCurrentStrategy g1 0 b * GetPayoff cexGame 1 a b := by
      intro a
      unfold cfu
      refine Finset.sum_congr rfl fun b _ => ?_
      rw [hpay1 a b]
      rfl
    have hcfu1_0 : cfu g1 1 0 = -1 := by
      rw [hcfu1 0, Finset.sum_range_succ, Finset.sum_range_succ, Finset.sum_range_zero,
        hcs00, hcs01, show GetPayoff cexGame 1 0 0 = -1 from rfl,
        show GetPayoff cexGame 1 0 1 = 0 from rfl]
      norm_num
    have hcfu1_1 : cfu g1 1 1 = 0 := by
      rw [hcfu1 1, Finset.sum_range_succ, Finset.sum_range_succ, Finset.sum_range_zero,
        hcs00, hcs01, show GetPayoff cexGame 1 1 0 = 0 from rfl,
        show GetPayoff cexGame 1 1 1 = 0 from rfl]
      norm_num
    have hev1' : ev g1 1 = -(1 / 2) := by
      have hrw : ev g1 1 = ∑ a in Finset.range 2, GetCurrentStrategy g1 1 a * cfu g1 1 a := rfl
      rw [hrw, Finset.sum_range_succ, Finset.sum_range_succ, Finset.sum_range_zero,
        hcs1 0, hcs1 1, hcfu1_0, hcfu1_1]
      norm_num
    rw [CFRStep_cfr_self g1 1 0 (by rw [hg1]; decide : (0:ℕ) < g1.size), hg1cfr1 0,
      hcfu1_0, hev1']
    norm_num
  rw [hA, hB]
  norm_num

/-- C1 (amended): within one `Iterate` call the per-player CFR/CFR+ updates
run sequentially, player 0 then player 1.  Each per-player update mutates only
its own player's regret and strategy accumulators, but it reads the opponent's
regret state as it is at the time of the call, so player 1's update observes
player 0's same-iteration update; the two update orders are therefore not
interchangeable in general (see the counterexample). -/
theorem cfr_per_player_update_frame (g : MatrixGame) (player p i : ℕ) (hp : p ≠ player) :
    (CFRStep g player).cfr p i = g.cfr p i ∧
    (CFRStep g player).strategy p i = g.strategy p i ∧
    (CFRPlusStep g player).cfr p i = g.cfr p i ∧
    (CFRPlusStep g player).strategy p i = g.strategy p i ∧
    CFRIter g = CFRStep (CFRStep (incCount g) 0) 1 ∧
    CFRPlusIter g = CFRPlusStep (CFRPlusStep (incCount g) 0) 1 :=
  ⟨CFRStep_cfr_other g player p i hp, CFRStep_strategy_other g player p i hp,
    CFRPlusStep_cfr_other g player p i hp, CFRPlusStep_strategy_other g player p i hp,
    rfl, rfl⟩

/-- C1 (witness): the frame part of the amended claim instantiated on the
concrete 2×2 example game. -/
theorem cfr_per_player_update_frame_witness :
    (1:ℕ) ≠ 0 ∧ (CFRStep exGame 0).cfr 1 0 = exGame.cfr 1 0 :=
  ⟨by decide, (cfr_per_player_update_frame exGame 0 1 0 (by decide)).1⟩

/-- C2: `GetExploitability` equals the average of the two best-response
values; each best-response value is the maximum over that player's actions of
the expected payoff against the opponent's average strategy (upper bound and
attainedness); and on every reachable solver state of a positively sized game
the exploitability is non-negative. -/
theorem exploitability_avg_and_nonneg (n : ℕ) (P : ℕ → ℚ) (g : MatrixGame)
    (hg : Reachable n P g) (hn : 0 < n) :
    GetExploitability g = (BestResponse g 0 + BestResponse g 1) / 2 ∧
    (∀ player a, a < g.size → brValue g player a ≤ BestResponse g player) ∧
    (∀ player, ∃ a, a < g.size ∧ BestResponse g player = brValue g player a) ∧
    0 ≤ GetExploitability g := by
  have hpos : 0 < g.size := by
    rw [Reachable_size n P g hg]
    exact hn
  refine ⟨rfl, ?_, ?_, ?_⟩
  · exact fun player a ha => BestResponse_ge g player hpos a ha
  · exact fun player => BestResponse_attained g player hpos
  · exact exploitability_nonneg_core g hpos (Reachable_strategy_nonneg n P g hg)

/-- C2 (witness): the exploitability bound instantiated at the freshly
constructed 2×2 example game. -/
theorem exploitability_avg_and_nonneg_witness :
    Reachable 2 cexPayoffs exGame ∧ 0 < 2 ∧ 0 ≤ GetExploitability exGame :=
  ⟨Reachable.init, by decide,
    (exploitability_avg_and_nonneg 2 cexPayoffs exGame Reachable.init (by decide)).2.2.2⟩

/-- Helper for C3: every CFR+ iteration preserves non-negativity of all regret
entries, hence so does any number of iterations. -/
theorem iterCFRPlus_cfr_nonneg (k : ℕ) (g : MatrixGame) (hg : ∀ p i, 0 ≤ g.cfr p i) :
    ∀ p i, 0 ≤ (iterCFRPlus k g).cfr p i := by
  induction k with
  | zero => exact hg
  | succ k ih => exact CFRPlusIter_cfr_nonneg (iterCFRPlus k g) ih

/-- C3: after any number of CFR+ iterations from the zero-initialized state,
every entry of both players' regret accumulators is non-negative: each CFR+
update writes `max 0 (R + cfu - ev)`, so non-negativity is preserved from the
all-zero initial accumulators. -/
theorem cfrplus_regret_nonneg (n : ℕ) (P : ℕ → ℚ) (k p i : ℕ) :
    0 ≤ (iterCFRPlus k (initGame n P)).cfr p i :=
  iterCFRPlus_cfr_nonneg k (initGame n P) (fun _ _ => le_refl 0) p i

/-- C4: `GetCurrentStrategy` implements regret matching: when the sum of
positive regret parts is zero it is uniform; when the sum is positive each
probability is the positive part `max 0 R` divided by that sum, and actions
with non-positive regret get exactly `0`; in every case the entries are
non-negative and sum to `1` over the action range. -/
theorem current_strategy_regret_matching (g : MatrixGame) (p : ℕ) (h : 0 < g.size) :
    (∀ i, 0 ≤ GetCurrentStrategy g p i) ∧
    (∑ i in Finset.range g.size, GetCurrentStrategy g p i = 1) ∧
    (regretPosSum g p = 0 → ∀ i, GetCurrentStrategy g p i = 1 / (g.size : ℚ)) ∧
    (0 < regretPosSum g p →
      ∀ i, GetCurrentStrategy g p i = max 0 (g.cfr p i) / regretPosSum g p) ∧
    (0 < regretPosSum g p → ∀ i, g.cfr p i ≤ 0 → GetCurrentStrategy g p i = 0) := by
  refine ⟨fun i => GetCurrentStrategy_nonneg g p i, GetCurrentStrategy_sum_one g p h, ?_, ?_, ?_⟩
  · intro h0 i
    rw [GetCurrentStrategy, h0, if_neg (lt_irrefl 0)]
  · intro hs i
    rw [GetCurrentStrategy, if_pos hs, max_zero_eq_ite]
    by_cases hc : g.cfr p i > 0
    · rw [if_pos hc, if_pos hc]
    · rw [if_neg hc, if_neg hc, zero_div]
  · intro hs i hi
    rw [GetCurrentStrategy, if_pos hs, if_neg (not_lt.mpr hi)]

/-- C4 (witness): regret matching instantiated on the 2×2 example game. -/
theorem current_strategy_regret_matching_witness :
    0 < exGame.size ∧ 0 ≤ GetCurrentStrategy exGame 0 0 :=
  ⟨by decide, (current_strategy_regret_matching exGame 0 (by decide)).1 0⟩

/-- C5: `GetNormalizedStrategy` divides each accumulator entry by the total
when the total is positive, falls back to the uniform distribution when the
total is zero, and on every reachable state of a positively sized game the
result has non-negative entries summing to `1`. -/
theorem average_strategy_distribution (n : ℕ) (P : ℕ → ℚ) (g : MatrixGame)
    (hg : Reachable n P g) (hn : 0 < n) (p : ℕ) :
    (0 < strategySum g p →
      ∀ i, GetNormalizedStrategy g p i = g.strategy p i / strategySum g p) ∧
    (strategySum g p = 0 → ∀ i, GetNormalizedStrategy g p i = 1 / (g.size : ℚ)) ∧
    (∀ i, 0 ≤ GetNormalizedStrategy g p i) ∧
    (∑ i in Finset.range g.size, GetNormalizedStrategy g p i = 1) := by
  have hpos : 0 < g.size := by
    rw [Reachable_size n P g hg]
    exact hn
  refine ⟨?_, ?_, ?_, GetNormalizedStrategy_sum_one g p hpos⟩
  · intro hs i
    rw [GetNormalizedStrategy, if_pos hs]
  · intro h0 i
    rw [GetNormalizedStrategy, h0, if_neg (lt_irrefl 0)]
  · exact fun i => GetNormalizedStrategy_nonneg g p i (Reachable_strategy_nonneg n P g hg p)

/-- C5 (witness): the average-strategy distribution property at the freshly
constructed 2×2 example game. -/
theorem average_strategy_distribution_witness :
    Reachable 2 cexPayoffs exGame ∧ 0 < 2 ∧ 0 ≤ GetNormalizedStrategy exGame 0 0 :=
  ⟨Reachable.init, by decide,
    (average_strategy_distribution 2 cexPayoffs exGame Reachable.init (by decide) 0).2.2.1 0⟩

/-- C6: the Fictitious Play per-player update increments exactly one entry of
the player's strategy accumulator by exactly `1` — at the best-responding
action — and leaves every other strategy entry, the opponent's strategy
accumulator and both regret accumulators unchanged; the chosen index is in
range, achieves the maximum expected payoff against the opponent's average
strategy, and is the first such index (strict `>` tie-break). -/
theorem fictitious_play_single_increment (g : MatrixGame) (player : ℕ) (h : 0 < g.size) :
    fpBestAction g player < g.size ∧
    (FictitiousPlayStep g player).strategy player (fpBestAction g player) =
      g.strategy player (fpBestAction g player) + 1 ∧
    (∀ i, i ≠ fpBestAction g player →
      (FictitiousPlayStep g player).strategy player i = g.strategy player i) ∧
    (∀ p i, p ≠ player → (FictitiousPlayStep g player).strategy p i = g.strategy p i) ∧
    (FictitiousPlayStep g player).cfr = g.cfr ∧
    (∀ a, a < g.size → brValue g player a ≤ brValue g player (fpBestAction g player)) ∧
    (∀ j, j < fpBestAction g player →
      brValue g player j < brValue g player (fpBestAction g player)) := by
  cases hbs : brScan (brValue g player) g.size with
  | none => exact absurd (brScan_eq_none _ _ hbs) (Nat.pos_iff_ne_zero.mp h)
  | some im =>
    have hfa : fpBestAction g player = im.1 := by
      unfold fpBestAction
      rw [hbs]
    obtain ⟨hfi, hlt, hub, hfirst⟩ :=
      brScan_spec (brValue g player) g.size im.1 im.2 (by rw [hbs])
    refine ⟨hfa ▸ hlt, fpStep_strategy_hit g player,
      fun i hi => fpStep_strategy_miss g player player i hi,
      fun p i hp => fpStep_strategy_other g player p i hp, rfl, ?_, ?_⟩
    · intro a ha
      rw [hfa, hfi]
      exact hub a ha
    · intro j hj
      rw [hfa] at hj
      rw [hfa, hfi]
      exact hfirst j hj

/-- C6 (witness): the single-increment property at the 2×2 example game. -/
theorem fictitious_play_single_increment_witness :
    0 < exGame.size ∧
    (FictitiousPlayStep exGame 0).strategy 0 (fpBestAction exGame 0) =
      exGame.strategy 0 (fpBestAction exGame 0) + 1 :=
  ⟨by decide, (fictitious_play_single_increment exGame 0 (by decide)).2.1⟩

/-- C7: zero-sum consistency of the payoff accessor: for actions within the
game size, player 0's payoff is the negated transposed entry of player 1's. -/
theorem payoff_zero_sum (g : MatrixGame) (a b : ℕ) (ha : a < g.size) (hb : b < g.size) :
    GetPayoff g 0 a b = -GetPayoff g 1 b a := by
  rw [GetPayoff_zero, GetPayoff_one, neg_neg]

/-- C7 (witness): zero-sum consistency at a concrete entry of the 2×2 example
game. -/
theorem payoff_zero_sum_witness :
    0 < exGame.size ∧ 1 < exGame.size ∧ GetPayoff exGame 0 0 1 = -GetPayoff exGame 1 1 0 :=
  ⟨by decide, by decide, payoff_zero_sum exGame 0 1 (by decide) (by decide)⟩

/-- C8: every strategy-accumulator entry is non-decreasing across one
`Iteration` step, whichever algorithm selector is used: Fictitious Play adds
`1` to one entry, CFR adds the non-negative current-strategy probability, and
CFR+ adds that probability times the squared iteration counter. -/
theorem strategy_accumulation_monotone (g : MatrixGame) (alg : ℤ) (p a : ℕ)
    (h : 0 < g.size) :
    g.strategy p a ≤ (Iteration alg g).strategy p a :=
  Iteration_strategy_mono alg g p a

/-- C8 (witness): monotone accumulation at the 2×2 example game under the
CFR+ selector. -/
theorem strategy_accumulation_monotone_witness :
    0 < exGame.size ∧ exGame.strategy 0 0 ≤ (Iteration 2 exGame).strategy 0 0 :=
  ⟨by decide, strategy_accumulation_monotone exGame 2 0 0 (by decide)⟩

/-- C9: `Iteration` treats every selector other than `0` and `1` — including
`2`, negative values and values above `2` — as the `default` case and runs a
CFR+ iteration; no selector value is rejected or ignored. -/
theorem selector_default_cfrplus (alg : ℤ) (g : MatrixGame) (h0 : alg ≠ 0) (h1 : alg ≠ 1) :
    Iteration alg g = CFRPlusIter g := by
  rw [Iteration, if_neg h0, if_neg h1]

/-- C9 (witness): the default branch at the selectors `2` and `-5` on the 2×2
example game. -/
theorem selector_default_cfrplus_witness :
    (2:ℤ) ≠ 0 ∧ (2:ℤ) ≠ 1 ∧ Iteration 2 exGame = CFRPlusIter exGame ∧
    (-5:ℤ) ≠ 0 ∧ (-5:ℤ) ≠ 1 ∧ Iteration (-5) exGame = CFRPlusIter exGame :=
  ⟨by decide, by decide, selector_default_cfrplus 2 exGame (by decide) (by decide),
    by decide, by decide, selector_default_cfrplus (-5) exGame (by decide) (by decide)⟩

/-- C10: `GetIterationCount` and `GetExploitability` are pure queries: a call
returns its value together with the receiver state, every component of which
(payoff buffer, both strategy accumulators, both regret accumulators and the
iteration counter) is unchanged, and repeated calls on the resulting state
return the same value. -/
theorem queries_pure (g : MatrixGame) :
    (GetIterationCountCall g).2 = g ∧ (GetExploitabilityCall g).2 = g ∧
    (GetIterationCountCall ((GetIterationCountCall g).2)).1 = (GetIterationCountCall g).1 ∧
    (GetExploitabilityCall ((GetExploitabilityCall g).2)).1 = (GetExploitabilityCall g).1 ∧
    (GetIterationCountCall g).2.payoffs = g.payoffs ∧
    (GetIterationCountCall g).2.strategy = g.strategy ∧
    (GetIterationCountCall g).2.cfr = g.cfr ∧
    (GetIterationCountCall g).2.iterationCount = g.iterationCount ∧
    (GetExploitabilityCall g).2.payoffs = g.payoffs ∧
    (GetExploitabilityCall g).2.strategy = g.strategy ∧
    (GetExploitabilityCall g).2.cfr = g.cfr ∧
    (GetExploitabilityCall g).2.iterationCount = g.iterationCount :=
  ⟨rfl, rfl, rfl, rfl, rfl, rfl, rfl, rfl, rfl, rfl, rfl, rfl⟩
